import Mathlib

/-!
Shallow embedding of the core of `note.py` (lecrix/my-note): the item-list
data model, the bounded undo/redo history engine of `NoteWindow`
(`_save_data`, `_undo`, `_redo`, `_auto_save`), the item operations
(`_add_item`, `_delete_item`, `_swap_items`, toggling completion), the
reconciliation pass (`_load_items`), and the drag-reorder handlers
(`_get_insert_position`, `_handle_item_drag`, `_handle_item_drop`).

Python dicts holding the persisted state are modelled as structures with
value semantics, so `json.loads(json.dumps(x))` (deep copy) is the
identity.  Python `float` settings values are carried as `Rat`; no claim
performs floating-point arithmetic on them, they are opaque pass-through
data.  Python `int` is `Int`.
-/

/-- One to-do record, `items[...]` in `note.py` (fields per
`_add_item`, line 1473). -/
structure Item where
  id : Int
  text : String
  completed : Bool
  created_at : String
deriving DecidableEq

/-- Window geometry record, `data['window']`. -/
structure WindowCfg where
  x : Int
  y : Int
  width : Int
  height : Int
deriving DecidableEq

/-- Settings record, `data['settings']`. -/
structure Settings where
  mode : String
  visibility_mode : String
  font_size : Int
  opacity_focused : Rat
  opacity_unfocused : Rat
deriving DecidableEq

/-- The persisted document, `self.data` of `NoteWindow`. -/
structure Document where
  items : List Item
  window : WindowCfg
  settings : Settings
deriving DecidableEq

/-- `Config.DEFAULT_CONFIG` (note.py line 65).  The opacities `1.0`
and `0.7` are the exact rationals `1/1` and `7/10`, written in
normal form so that equality on them evaluates. -/
def default_document : Document :=
  { items := []
    window := { x := 100, y := 100, width := 320, height := 450 }
    settings :=
      { mode := "topmost", visibility_mode := "always_visible"
        font_size := 13
        opacity_focused := ⟨1, 1, by decide, by decide⟩
        opacity_unfocused := ⟨7, 10, by decide, by decide⟩ } }

/-- The history-relevant state of a `NoteWindow`: `self.data`,
`self._history`, `self._history_index`. -/
structure NoteState where
  data : Document
  history : List Document
  history_index : Int
deriving DecidableEq

/-- `self.MAX_HISTORY_SIZE = 20` (note.py line 1108). -/
def MAX_HISTORY_SIZE : Nat := 20

/-- `NoteWindow.__init__` (lines 1105-1107): empty history, index `-1`,
document loaded from storage. -/
def init_state (d : Document) : NoteState :=
  { data := d, history := [], history_index := -1 }

/-- The truncation step of `_save_data` (lines 2198-2199):
`if self._history_index < len(self._history) - 1:
   self._history = self._history[:self._history_index + 1]`. -/
def truncated_history (s : NoteState) : List Document :=
  if s.history_index < (s.history.length : Int) - 1 then
    s.history.take (s.history_index + 1).toNat
  else s.history

/-- `NoteWindow._save_data` (lines 2194-2209).  With `record_history`,
truncates the redo branch, appends a deep copy of `self.data`, pops the
oldest entry if over capacity, and sets
`self._history_index = len(self._history) - 1`.  (The intermediate
`self._history_index -= 1` in the pop branch is dead: the final
assignment overwrites it.)  `DataManager.save` is external I/O and does
not touch this state. -/
def save_data (s : NoteState) (record_history : Bool := true) : NoteState :=
  if record_history then
    let h1 := truncated_history s ++ [s.data]
    let h2 := if h1.length > MAX_HISTORY_SIZE then h1.drop 1 else h1
    { s with history := h2, history_index := (h2.length : Int) - 1 }
  else s

/-- `NoteWindow._auto_save` (lines 2211-2214): saves with
`record_history=False`. -/
def auto_save (s : NoteState) : NoteState :=
  save_data s false

/-- `NoteWindow._undo` (lines 2216-2223). -/
def undo (s : NoteState) : NoteState :=
  if s.history_index > 0 then
    let i := s.history_index - 1
    { s with history_index := i, data := s.history.getD i.toNat s.data }
  else s

/-- `NoteWindow._redo` (lines 2225-2232). -/
def redo (s : NoteState) : NoteState :=
  if s.history_index < (s.history.length : Int) - 1 then
    let i := s.history_index + 1
    { s with history_index := i, data := s.history.getD i.toNat s.data }
  else s

/-- A historically significant mutation: the handler mutates `self.data`
in place, then calls `self._save_data()` (e.g. `_add_item` line 1511,
`_delete_item` line 1556, `_swap_items` line 1172, `_on_item_changed`
line 1563). -/
def sig_mutate (f : Document → Document) (s : NoteState) : NoteState :=
  save_data { s with data := f s.data }

/-- A whole sequence of historically significant mutations. -/
def apply_mutations (s : NoteState) (fs : List (Document → Document)) : NoteState :=
  fs.foldl (fun t f => sig_mutate f t) s

/-- `max([item['id'] for item in self.data['items']], default=0)`
(note.py line 1472): the maximum of the ids when the list is nonempty,
`0` when it is empty. -/
def max_id (items : List Item) : Int :=
  match items.map Item.id with
  | [] => 0
  | x :: xs => xs.foldl max x

/-- `NoteWindow._add_item` (lines 1463-1511), restricted to its effect
on `self.data['items']`: build the new record with id `max_id + 1`,
empty text, not completed; insert it right after the first item whose id
is `after_id` when that is given and found, else append.  (Focus
handling and the reload are view-side.) -/
def add_item (d : Document) (after_id : Option Int) (created_at : String) :
    Document :=
  let new_id := max_id d.items + 1
  let new_item : Item :=
    { id := new_id, text := "", completed := false, created_at := created_at }
  match after_id with
  | some aid =>
    match d.items.findIdx? (fun it => it.id = aid) with
    | some i =>
      { d with items :=
          d.items.take (i + 1) ++ new_item :: d.items.drop (i + 1) }
    | none => { d with items := d.items ++ [new_item] }
  | none => { d with items := d.items ++ [new_item] }

/-- `NoteWindow._delete_item` (lines 1522-1556), restricted to its
effect on `self.data['items']`:
`self.data['items'] = [item for item in self.data['items'] if item['id'] != item_id]`. -/
def delete_item (d : Document) (item_id : Int) : Document :=
  { d with items := d.items.filter (fun it => it.id ≠ item_id) }

/-- `TodoItem._on_toggle` (lines 557-574), restricted to its effect on
the shared item record inside `self.data['items']`: the item with the
given id has its `completed` flag flipped. -/
def toggle_completion (items : List Item) (item_id : Int) : List Item :=
  items.map (fun it =>
    if it.id = item_id then { it with completed := !it.completed } else it)

/-- An `_add_item`/`_delete_item` call, for sequences of operations. -/
inductive DocOp where
  | add (after_id : Option Int) (created_at : String)
  | del (item_id : Int)

/-- Applies one operation to the document. -/
def apply_op (d : Document) : DocOp → Document
  | .add a c => add_item d a c
  | .del i => delete_item d i

/-- Applies a sequence of add/delete operations. -/
def apply_ops (d : Document) (ops : List DocOp) : Document :=
  ops.foldl apply_op d

/-- Placeholder record used only for guarded list indexing (`getD`);
every use below is under a bounds check, so it is never observed. -/
def default_item : Item :=
  { id := 0, text := "", completed := false, created_at := "" }

/-- `NoteWindow._swap_items` (lines 1141-1172), restricted to its effect
on `self.data['items']` and whether it commits (`_save_data` at line
1172 runs only on the in-bounds path).  Returns the new item list and
`true` exactly when a history snapshot is pushed. -/
def swap_items (items : List Item) (item_id : Int) (direction : Int) :
    List Item × Bool :=
  match items.findIdx? (fun it => it.id = item_id) with
  | none => (items, false)
  | some current_index =>
    let target_index : Int := (current_index : Int) + direction
    if 0 ≤ target_index ∧ target_index < (items.length : Int) then
      let a := items.getD current_index default_item
      let b := items.getD target_index.toNat default_item
      ((items.set current_index b).set target_index.toNat a, true)
    else (items, false)

/-- The main loop of `NoteWindow._load_items` (lines 1382-1394), as a
structural recursion over the new data items.  `remaining` holds the
ids of the not-yet-matched existing widgets (the keys of the
`existing_widgets` dict; under the document's id-uniqueness invariant
the dict is exactly this list).  Each output pair carries the item data
of the widget at that position plus a flag: `true` iff the widget was
newly created (id not matched), `false` iff an existing widget was
reused and updated in place via `update_item_data`.  The second result
is the leftover: the ids of the widgets that get destroyed (line
1396-1399). -/
def process_items : List Item → List Int → List (Item × Bool) × List Int
  | [], remaining => ([], remaining)
  | it :: rest, remaining =>
    if remaining.contains it.id then
      let r := process_items rest (remaining.erase it.id)
      ((it, false) :: r.1, r.2)
    else
      let r := process_items rest remaining
      ((it, true) :: r.1, r.2)

/-- The observable outcome of one reconciliation pass. -/
structure ReconcileResult where
  /-- The new widget list in order: item data plus a newly-created flag. -/
  widgets : List (Item × Bool)
  /-- Ids of widgets destroyed by the pass. -/
  destroyed_ids : List Int
  /-- Ids of widgets created by the pass. -/
  created_ids : List Int
  /-- `order_changed` (line 1407): whether the surviving ids changed
  relative order, triggering the full repack branch. -/
  order_changed : Bool
deriving DecidableEq

/-- `NoteWindow._load_items` (lines 1368-1461) as a pure function from
the previous widget list (each widget carries its `item_data`) and the
new `self.data['items']` to the reconciliation outcome.  `old_ids`
(line 1403) is the previous order restricted to surviving widgets,
`new_ids` (line 1404) the new order restricted to reused widgets. -/
def load_items (prev : List Item) (new_items : List Item) : ReconcileResult :=
  let existing := prev.map Item.id
  let r := process_items new_items existing
  let created := (r.1.filter (fun p => p.2)).map (fun p => p.1.id)
  let old_ids := existing.filter (fun i => !(r.2.contains i))
  let new_ids := (r.1.filter (fun p => !p.2)).map (fun p => p.1.id)
  { widgets := r.1, destroyed_ids := r.2, created_ids := created,
    order_changed := decide (old_ids ≠ new_ids) }

/-- The view-plus-model state touched by the drag-reorder handlers:
`self.todo_widgets` (each widget carries its `item_data`), the note
state, and `self._dragging_widget`'s presence. -/
structure DragState where
  widgets : List Item
  note : NoteState
  dragging : Bool
deriving DecidableEq

/-- `NoteWindow._get_insert_position` (lines 2284-2290): the first index
`i` (in current view order, the dragged widget included) whose vertical
midpoint `widget_y` satisfies `y_pos < widget_y`, or the widget count if
none.  The midpoints (`winfo_rooty() + winfo_height() // 2`) are
geometry and enter as a parameter, one per widget in view order. -/
def get_insert_position : List Int → Int → Nat
  | [], _ => 0
  | m :: ms, y_pos => if y_pos < m then 0 else get_insert_position ms y_pos + 1

/-- `NoteWindow._handle_item_drag` (lines 2234-2264): sets
`_dragging_widget`, computes `insert_index` and the dragged widget's
`current_index`, and when `insert_index` differs from both
`current_index` and `current_index + 1`, removes the dragged widget
from `self.todo_widgets` and reinserts it at
`insert_index if insert_index <= current_index else insert_index - 1`
(the pack relocation mirrors the list).  The document and history are
untouched.  The dragged widget is identified by its item id (the
Python `list.index(widget)` identity lookup, under id uniqueness). -/
def handle_item_drag (s : DragState) (dragged_id : Int) (midpoints : List Int)
    (y_pos : Int) : DragState :=
  let s := { s with dragging := true }
  let insert_index := get_insert_position midpoints y_pos
  match s.widgets.findIdx? (fun w => w.id = dragged_id) with
  | none => s
  | some current_index =>
    if insert_index ≠ current_index ∧ insert_index ≠ current_index + 1 then
      let w := s.widgets.getD current_index default_item
      let ws := s.widgets.eraseIdx current_index
      let pos := if insert_index ≤ current_index then insert_index
                 else insert_index - 1
      { s with widgets := ws.take pos ++ w :: ws.drop pos }
    else s

/-- `NoteWindow._handle_item_drop` (lines 2292-2311): a no-op unless a
drag is in progress; otherwise rebuilds `self.data['items']` in the
final view order by matching each widget back to its item by id, then
performs exactly one `_save_data()` (one history push) for the whole
gesture. -/
def handle_item_drop (s : DragState) : DragState :=
  if s.dragging then
    let new_order := s.widgets.filterMap
      (fun w => s.note.data.items.find? (fun it => it.id = w.id))
    let note := save_data
      { s.note with data := { s.note.data with items := new_order } }
    { s with note := note, dragging := false }
  else s

/-- Modelled from the spec, for comparison against
`get_insert_position` only (refinement check of spec section 4.2):
"`insertIndex` = the number of currently-visible items (excluding the
dragged one) whose vertical midpoint lies above
`pointerVerticalPosition`".  Screen coordinates grow downward, so a
midpoint lies above the pointer when it is strictly smaller. -/
def spec_insert_index (midpoints : List Int) (dragged_index : Nat)
    (y_pos : Int) : Nat :=
  (midpoints.enum.filter
    (fun p => decide (p.1 ≠ dragged_index) && decide (p.2 < y_pos))).length

/-- A document distinguished by its `font_size`, to build sequences of
pairwise-distinct snapshots for the history scenarios. -/
def doc_n (n : Nat) : Document :=
  { default_document with
    settings := { default_document.settings with font_size := (n : Int) } }

/-- The spec's 21-push scenario: starting from a fresh session, 21
historically significant mutations whose resulting documents are
`doc_n 0, doc_n 1, ..., doc_n 20` (push number `k` records
`doc_n (k - 1)`). -/
def sc21 : NoteState :=
  apply_mutations (init_state (doc_n 100))
    ((List.range 21).map (fun i _ => doc_n i))

/-- A bare to-do record with the given id and completion flag. -/
def item_n (i : Int) (c : Bool) : Item :=
  { id := i, text := "", completed := c, created_at := "" }

/-- Start state of the spec's drag scenario: view order `[1, 2, 3]`,
document items in the same order, one snapshot already in history. -/
def drag_s0 : DragState :=
  { widgets := [item_n 1 false, item_n 2 false, item_n 3 false]
    note :=
      { data := { default_document with
                   items := [item_n 1 false, item_n 2 false, item_n 3 false] }
        history := [default_document], history_index := 0 }
    dragging := false }

/-- One `updateDrag` step of the scenario: item `2` (view index 1)
dragged to the top — pointer at `y = 50`, above all three midpoints
`[100, 200, 300]`, so the insert index is `0`. -/
def drag_s1 : DragState :=
  handle_item_drag drag_s0 2 [100, 200, 300] 50

/-! ## History engine lemmas -/

/-- State shape holding right after any `_save_data` push: the history
is nonempty, the cursor sits on the last entry, and the last entry is
(a deep copy of) the live document. -/
def good (s : NoteState) : Prop :=
  s.history ≠ [] ∧ s.history_index = (s.history.length : Int) - 1 ∧
  s.history.getLast? = some s.data

lemma good_save_data (s : NoteState) : good (save_data s) := by
  have hproj : (save_data s).history
      = (if (truncated_history s ++ [s.data]).length > MAX_HISTORY_SIZE
         then (truncated_history s ++ [s.data]).drop 1
         else truncated_history s ++ [s.data]) := rfl
  have hidx : (save_data s).history_index
      = ((save_data s).history.length : Int) - 1 := rfl
  have hdata : (save_data s).data = s.data := rfl
  refine ⟨?_, hidx, ?_⟩ <;> rw [hproj] <;> split
  · rename_i hgt
    cases ht : truncated_history s with
    | nil => rw [ht] at hgt; simp [MAX_HISTORY_SIZE] at hgt
    | cons x ts => simp
  · simp
  · rename_i hgt
    cases ht : truncated_history s with
    | nil => rw [ht] at hgt; simp [MAX_HISTORY_SIZE] at hgt
    | cons x ts =>
      rw [hdata]
      simp [List.getLast?_concat]
  · rw [hdata]
    simp [List.getLast?_concat]

lemma good_apply_mutations (s : NoteState)
    (fs : List (Document → Document)) (h : fs ≠ []) :
    good (apply_mutations s fs) := by
  induction fs generalizing s with
  | nil => cases h rfl
  | cons f rest ih =>
    have hstep : apply_mutations s (f :: rest)
        = apply_mutations (sig_mutate f s) rest := rfl
    rw [hstep]
    cases rest with
    | nil => exact good_save_data _
    | cons g rs => exact ih _ (by simp)

lemma redo_undo_of_good (s : NoteState) (h : good s) :
    redo (undo s) = s ∧ (undo s).history = s.history := by
  obtain ⟨d, hist, idx⟩ := s
  obtain ⟨hne, hidx, hlast⟩ := h
  simp only at hidx hlast
  by_cases h0 : idx > 0
  · have hlen : 2 ≤ hist.length := by omega
    have hu : undo ⟨d, hist, idx⟩
        = ⟨hist.getD (idx - 1).toNat d, hist, idx - 1⟩ := by
      rw [undo]; simp [h0]
    rw [hu]
    have hcond : idx - 1 < (hist.length : Int) - 1 := by omega
    have hr : redo ⟨hist.getD (idx - 1).toNat d, hist, idx - 1⟩
        = ⟨hist.getD (idx - 1 + 1).toNat (hist.getD (idx - 1).toNat d),
           hist, idx - 1 + 1⟩ := by
      rw [redo]; simp only at hcond ⊢; rw [if_pos hcond]
    rw [hr]
    have htn : (idx - 1 + 1).toNat = hist.length - 1 := by omega
    have hget : hist.getD (hist.length - 1) (hist.getD (idx - 1).toNat d) = d := by
      rw [List.getD_eq_getElem?_getD, ← List.getLast?_eq_getElem?, hlast]
      rfl
    rw [htn, hget]
    have : idx - 1 + 1 = idx := by omega
    rw [this]
    exact ⟨rfl, rfl⟩
  · have hu : undo ⟨d, hist, idx⟩ = ⟨d, hist, idx⟩ := by
      rw [undo]; simp [h0]
    rw [hu]
    have hcond : ¬ idx < (hist.length : Int) - 1 := by
      have : 1 ≤ hist.length := List.length_pos.mpr hne
      omega
    have hr : redo ⟨d, hist, idx⟩ = ⟨d, hist, idx⟩ := by
      rw [redo]; simp only; rw [if_neg hcond]
    exact ⟨hr, rfl⟩

/-! ## Claim theorems: history engine -/

/-- C1.  Undo/redo inverse law: for every nonempty sequence of
historically significant mutations applied to a fresh session,
`_undo()` followed immediately by `_redo()` restores the whole state —
in particular the live Document (`items`, `window`, `settings`) equals,
field for field, the state produced by the last mutation — and neither
call appends a new history entry. -/
theorem undo_redo_inverse (d : Document) (fs : List (Document → Document))
    (h : fs ≠ []) :
    (undo (apply_mutations (init_state d) fs)).history
      = (apply_mutations (init_state d) fs).history ∧
    redo (undo (apply_mutations (init_state d) fs))
      = apply_mutations (init_state d) fs := by
  have hg := good_apply_mutations (init_state d) fs h
  have := redo_undo_of_good _ hg
  exact ⟨this.2, this.1⟩

/-- Witness for C1 at a concrete input: one identity mutation. -/
theorem undo_redo_inverse_witness :
    (undo (apply_mutations (init_state default_document) [fun x => x])).history
      = (apply_mutations (init_state default_document) [fun x => x]).history ∧
    redo (undo (apply_mutations (init_state default_document) [fun x => x]))
      = apply_mutations (init_state default_document) [fun x => x] :=
  undo_redo_inverse default_document [fun x => x] (by simp)

/-- C3.  Redo-branch discard: after any `_save_data` push — in
particular after a successful `_undo()` followed by a new historically
significant mutation — `_redo()` is a no-op (the state is returned
unchanged, i.e. none is restored), the cursor equals
`len(entries) - 1`, and the new history is a suffix of the truncated
history plus the new snapshot: every entry that sat ahead of the cursor
at push time has been discarded and is unrecoverable. -/
theorem redo_branch_discard (s : NoteState) :
    redo (save_data s) = save_data s ∧
    (save_data s).history_index = ((save_data s).history.length : Int) - 1 ∧
    (save_data s).history <:+ truncated_history s ++ [s.data] := by
  have hidx : (save_data s).history_index
      = ((save_data s).history.length : Int) - 1 := rfl
  refine ⟨?_, hidx, ?_⟩
  · rw [redo, if_neg]
    rw [hidx]
    omega
  · have hproj : (save_data s).history
        = (if (truncated_history s ++ [s.data]).length > MAX_HISTORY_SIZE
           then (truncated_history s ++ [s.data]).drop 1
           else truncated_history s ++ [s.data]) := rfl
    rw [hproj]
    split
    · exact List.drop_suffix 1 _
    · exact List.suffix_refl _

/-- C10.  The initial Document loaded at startup is never pushed:
`__init__` leaves the history empty with cursor `-1`, and the startup
`_auto_save` saves with `record_history=False`, changing nothing.
After exactly one historically significant mutation the history holds a
single entry with cursor `0`, and `_undo()` is a no-op — the first
significant mutation of a session cannot be undone back to the startup
state. -/
theorem startup_history_empty (d : Document) (f : Document → Document) :
    (auto_save (init_state d)).history = [] ∧
    (auto_save (init_state d)).history_index = -1 ∧
    (sig_mutate f (auto_save (init_state d))).history = [f d] ∧
    (sig_mutate f (auto_save (init_state d))).history_index = 0 ∧
    undo (sig_mutate f (auto_save (init_state d)))
      = sig_mutate f (auto_save (init_state d)) :=
  ⟨rfl, rfl, rfl, rfl, rfl⟩

/-- The truncation never lengthens the history. -/
lemma truncated_history_length_le (s : NoteState) :
    (truncated_history s).length ≤ s.history.length := by
  rw [truncated_history]
  split
  · simp
  · exact Nat.le_refl _

set_option maxRecDepth 40000 in
/-- C2.  History bound and eviction: a push from a state within
capacity stays within `MAX_HISTORY_SIZE = 20`; a push at capacity
evicts exactly the oldest entry; and in the spec's scenario of 21
distinct pushes the history holds the snapshots of pushes 2..21,
repeated `_undo()` bottoms out exactly at the snapshot of push number 2
(`doc_n 1`; push number 1 recorded `doc_n 0` and is gone), and a
further `_undo()` is a no-op. -/
theorem history_bound_eviction :
    (∀ s : NoteState, s.history.length ≤ MAX_HISTORY_SIZE →
        (save_data s).history.length ≤ MAX_HISTORY_SIZE) ∧
    (∀ s : NoteState, (truncated_history s).length = MAX_HISTORY_SIZE →
        (save_data s).history = (truncated_history s).drop 1 ++ [s.data]) ∧
    sc21.history = (List.range MAX_HISTORY_SIZE).map (fun k => doc_n (k + 1)) ∧
    (undo^[19] sc21).data = doc_n 1 ∧
    undo (undo^[19] sc21) = undo^[19] sc21 := by
  refine ⟨?_, ?_, by decide, by decide, by decide⟩
  · intro s hs
    have ht := truncated_history_length_le s
    have hproj : (save_data s).history
        = (if (truncated_history s ++ [s.data]).length > MAX_HISTORY_SIZE
           then (truncated_history s ++ [s.data]).drop 1
           else truncated_history s ++ [s.data]) := rfl
    rw [hproj]
    have hlen : (truncated_history s ++ [s.data]).length
        = (truncated_history s).length + 1 := by simp
    split
    · rw [List.length_drop, hlen]
      omega
    · rename_i hle
      rw [hlen] at hle ⊢
      omega
  · intro s hs
    have hproj : (save_data s).history
        = (if (truncated_history s ++ [s.data]).length > MAX_HISTORY_SIZE
           then (truncated_history s ++ [s.data]).drop 1
           else truncated_history s ++ [s.data]) := rfl
    rw [hproj, if_pos (by simp [hs, MAX_HISTORY_SIZE])]
    cases ht : truncated_history s with
    | nil => rw [ht] at hs; simp [MAX_HISTORY_SIZE] at hs
    | cons x ts => simp

set_option maxRecDepth 40000 in
/-- Witness for C2's two guarded parts at concrete states: a push from
the empty fresh history, and the capacity-20 state `sc21`. -/
theorem history_bound_eviction_witness :
    ((init_state default_document).history.length ≤ MAX_HISTORY_SIZE ∧
     (save_data (init_state default_document)).history.length
       ≤ MAX_HISTORY_SIZE) ∧
    ((truncated_history sc21).length = MAX_HISTORY_SIZE ∧
     (save_data sc21).history
       = (truncated_history sc21).drop 1 ++ [sc21.data]) :=
  ⟨⟨by decide, history_bound_eviction.1 _ (by decide)⟩,
   ⟨by decide, history_bound_eviction.2.1 _ (by decide)⟩⟩

/-! ## Id assignment lemmas -/

lemma le_foldl_max (l : List Int) (a : Int) : a ≤ l.foldl max a := by
  induction l generalizing a with
  | nil => exact le_refl a
  | cons x xs ih => exact le_trans (le_max_left a x) (ih (max a x))

lemma mem_le_foldl_max {b : Int} (l : List Int) (a : Int) (hb : b ∈ l) :
    b ≤ l.foldl max a := by
  induction l generalizing a with
  | nil => cases hb
  | cons x xs ih =>
    rcases List.mem_cons.mp hb with rfl | hx
    · exact le_trans (le_max_right a b) (le_foldl_max xs (max a b))
    · exact ih (max a x) hx

/-- Every id in the document is bounded by `max_id`. -/
lemma mem_id_le_max_id (items : List Item) (x : Int)
    (hx : x ∈ items.map Item.id) : x ≤ max_id items := by
  unfold max_id
  split
  · rename_i heq; rw [heq] at hx; cases hx
  · rename_i y ys heq
    rw [heq] at hx
    rcases List.mem_cons.mp hx with rfl | hmem
    · exact le_foldl_max ys x
    · exact mem_le_foldl_max ys y hmem

/-- `_add_item` inserts exactly one new record with id
`max_id + 1` somewhere in the list, keeping all other ids. -/
lemma add_item_ids_perm (d : Document) (a : Option Int) (c : String) :
    ((add_item d a c).items.map Item.id).Perm
      ((max_id d.items + 1) :: d.items.map Item.id) := by
  cases a with
  | none => simp [add_item]
  | some aid =>
    cases hf : d.items.findIdx? (fun it => it.id = aid) with
    | none => simp [add_item, hf]
    | some i =>
      simp only [add_item, hf, List.map_append, List.map_cons]
      refine List.Perm.trans List.perm_middle ?_
      rw [List.map_take, List.map_drop, List.take_append_drop]

/-- One `_add_item`/`_delete_item` keeps the ids pairwise distinct. -/
lemma apply_op_nodup (d : Document) (op : DocOp)
    (h : (d.items.map Item.id).Nodup) :
    ((apply_op d op).items.map Item.id).Nodup := by
  cases op with
  | add a c =>
    have hperm := add_item_ids_perm d a c
    rw [apply_op, hperm.nodup_iff]
    refine List.nodup_cons.mpr ⟨?_, h⟩
    intro hmem
    have := mem_id_le_max_id d.items _ hmem
    omega
  | del i =>
    have hsub : ((delete_item d i).items.map Item.id).Sublist
        (d.items.map Item.id) := by
      simp only [delete_item]
      exact (List.filter_sublist _).map _
    exact h.sublist hsub

/-- C4.  Id assignment and uniqueness: `_add_item` assigns the new item
the id `max_id + 1` (the ids after the add are a permutation of the new
id consed on the old ids), which is `1` on an empty item list;
`max_id` bounds every existing id (so the new id really is
`max(existing ids) + 1`); and every sequence of `_add_item` /
`_delete_item` operations keeps the ids pairwise distinct. -/
theorem id_assignment_uniqueness :
    (∀ (d : Document) (a : Option Int) (c : String),
        ((add_item d a c).items.map Item.id).Perm
          ((max_id d.items + 1) :: d.items.map Item.id)) ∧
    (∀ (d : Document) (a : Option Int) (c : String), d.items = [] →
        (add_item d a c).items.map Item.id = [1]) ∧
    (∀ (d : Document) (x : Int),
        x ∈ d.items.map Item.id → x ≤ max_id d.items) ∧
    (∀ (d : Document) (ops : List DocOp),
        (d.items.map Item.id).Nodup →
        ((apply_ops d ops).items.map Item.id).Nodup) := by
  refine ⟨add_item_ids_perm, ?_, fun d => mem_id_le_max_id d.items, ?_⟩
  · intro d a c h
    cases a with
    | none => simp [add_item, h, max_id]
    | some aid => simp [add_item, h, max_id]
  · intro d ops h
    induction ops generalizing d with
    | nil => exact h
    | cons op rest ih =>
      have hstep : apply_ops d (op :: rest)
          = apply_ops (apply_op d op) rest := rfl
      rw [hstep]
      exact ih _ (apply_op_nodup d op h)

/-- Witness for C4 at concrete inputs: an add on the empty document
yields id `1`, ids are bounded by `max_id`, and the four-operation
sequence add, add, delete 2, add keeps ids distinct. -/
theorem id_assignment_uniqueness_witness :
    (add_item default_document none "t").items.map Item.id = [1] ∧
    ((1 : Int) ∈ (add_item default_document none "t").items.map Item.id ∧
      (1 : Int) ≤ max_id (add_item default_document none "t").items) ∧
    ((default_document.items.map Item.id).Nodup ∧
      ((apply_ops default_document
          [.add none "t", .add none "t", .del 2, .add none "t"]).items.map
        Item.id).Nodup) :=
  ⟨id_assignment_uniqueness.2.1 default_document none "t" rfl,
   ⟨by decide,
    id_assignment_uniqueness.2.2.1 (add_item default_document none "t") 1
      (by decide)⟩,
   ⟨by decide,
    id_assignment_uniqueness.2.2.2 default_document
      [.add none "t", .add none "t", .del 2, .add none "t"] (by decide)⟩⟩

/-- C9 counterexample.  Within one session, starting from the empty
document: `_add_item` assigns id 1, a second `_add_item` assigns id 2,
`_delete_item 2` removes it, and the next `_add_item` assigns
`max([1], default=0) + 1 = 2` again — the id `2` that was previously
used in the session is reassigned, refuting "an id that has been
assigned and later removed is never assigned again". -/
theorem id_reuse_counterexample :
    2 ∈ (add_item (add_item default_document none "t") none "t").items.map
          Item.id ∧
    (delete_item (add_item (add_item default_document none "t") none "t")
        2).items.map Item.id = [1] ∧
    (add_item
        (delete_item (add_item (add_item default_document none "t") none "t") 2)
        none "t").items.map Item.id = [1, 2] := by
  decide

/-- C9 amended.  The id `_add_item` assigns is fresh with respect to the
ids *currently present* in the document — it occurs zero times before
the add and exactly once after — but an id removed by `_delete_item`
may be reassigned by a later `_add_item` once no larger id remains
(the generator is `max(existing ids) + 1`, not a session-wide
high-water mark). -/
theorem added_id_fresh (d : Document) (a : Option Int) (c : String) :
    (d.items.map Item.id).count (max_id d.items + 1) = 0 ∧
    ((add_item d a c).items.map Item.id).count (max_id d.items + 1) = 1 := by
  have h0 : (d.items.map Item.id).count (max_id d.items + 1) = 0 := by
    rw [List.count_eq_zero]
    intro hmem
    have := mem_id_le_max_id d.items _ hmem
    omega
  refine ⟨h0, ?_⟩
  rw [(add_item_ids_perm d a c).count_eq, List.count_cons_self, h0]

/-! ## Reconciliation lemmas -/

/-- The reconciliation loop emits one widget per new data item, in
order, carrying exactly that item's data. -/
lemma process_items_fst (items : List Item) (remaining : List Int) :
    (process_items items remaining).1.map Prod.fst = items := by
  induction items generalizing remaining with
  | nil => rfl
  | cons it rest ih =>
    rw [process_items]
    split
    · simpa using ih (remaining.erase it.id)
    · simpa using ih remaining

/-- The leftover of the loop — the widgets that get destroyed — is the
previous id list minus the ids that occur among the new items. -/
lemma process_items_destroyed (items : List Item) (remaining : List Int)
    (h : remaining.Nodup) :
    (process_items items remaining).2
      = remaining.filter (fun i => !((items.map Item.id).contains i)) := by
  induction items generalizing remaining with
  | nil => simp [process_items]
  | cons it rest ih =>
    rw [process_items]
    by_cases hc : remaining.contains it.id
    · rw [if_pos hc]
      show (process_items rest (remaining.erase it.id)).2 = _
      rw [ih _ (List.Nodup.erase _ h), List.Nodup.erase_eq_filter h,
        List.filter_filter]
      apply List.filter_congr
      intro x hx
      simp only [List.map_cons, List.contains_cons, Bool.not_or, bne,
        Bool.and_comm]
    · rw [if_neg hc]
      show (process_items rest remaining).2 = _
      rw [ih _ h]
      apply List.filter_congr
      intro x hx
      have hne : x ≠ it.id := by
        intro he
        exact hc (by simpa [he] using hx)
      simp [hne]

/-- The created ids of the loop are the new ids that do not occur among
the previous widgets' ids. -/
lemma process_items_created (items : List Item) (remaining : List Int)
    (hr : remaining.Nodup) (hi : (items.map Item.id).Nodup) :
    ((process_items items remaining).1.filter (fun p => p.2)).map
        (fun p => p.1.id)
      = (items.map Item.id).filter (fun i => !(remaining.contains i)) := by
  induction items generalizing remaining with
  | nil => simp [process_items]
  | cons it rest ih =>
    rw [List.map_cons] at hi
    obtain ⟨hnotin, hrest⟩ := List.nodup_cons.mp hi
    rw [process_items]
    by_cases hc : remaining.contains it.id
    · rw [if_pos hc]
      show ((((it, false) :: (process_items rest (remaining.erase it.id)).1)
          ).filter (fun p => p.2)).map (fun p => p.1.id) = _
      rw [List.filter_cons_of_neg (by simp),
        ih _ (List.Nodup.erase _ hr) hrest, List.map_cons,
        List.filter_cons_of_neg (by simpa using hc)]
      apply List.filter_congr
      intro x hx
      have hne : x ≠ it.id := by
        intro he
        exact hnotin (he ▸ hx)
      simp [List.mem_erase_of_ne hne]
    · rw [if_neg hc]
      show ((((it, true) :: (process_items rest remaining).1)
          ).filter (fun p => p.2)).map (fun p => p.1.id) = _
      rw [List.filter_cons_of_pos (by simp), List.map_cons, ih _ hr hrest,
        List.map_cons, List.filter_cons_of_pos (by simpa using hc)]

/-- When the new items carry exactly the previous ids in the previous
order, every widget is matched and reused: nothing is created, nothing
is destroyed. -/
lemma process_items_all_matched (items : List Item) (remaining : List Int)
    (h : items.map Item.id = remaining) :
    process_items items remaining
      = (items.map (fun it => (it, false)), []) := by
  induction items generalizing remaining with
  | nil => cases h; rfl
  | cons it rest ih =>
    cases h
    rw [process_items, List.map_cons, if_pos (by simp),
      List.erase_cons_head, ih _ rfl]
    rfl

/-- Toggling a completion flag never changes the id sequence. -/
lemma toggle_completion_map_id (items : List Item) (item_id : Int) :
    (toggle_completion items item_id).map Item.id = items.map Item.id := by
  induction items with
  | nil => rfl
  | cons it rest ih =>
    simp only [toggle_completion, List.map_cons] at ih ⊢
    by_cases h : it.id = item_id <;> simp [h, ih]

/-- C5.  Reconciliation reuse (minimality): under the document's
id-uniqueness invariant, a pass destroys exactly the widgets whose ids
are absent from the new item list and creates widgets exactly for the
ids absent from the previous rendered set; and toggling the completed
flag of one item among N creates nothing, destroys nothing (the
widget is reused and updated in place, never destroyed and recreated),
and never sets `order_changed` — the relative order of ids is
unchanged, so no full repack is triggered. -/
theorem reconcile_minimality :
    (∀ (prev new_items : List Item),
        (prev.map Item.id).Nodup → (new_items.map Item.id).Nodup →
        (load_items prev new_items).destroyed_ids
            = (prev.map Item.id).filter
                (fun i => !((new_items.map Item.id).contains i)) ∧
        (load_items prev new_items).created_ids
            = (new_items.map Item.id).filter
                (fun i => !((prev.map Item.id).contains i))) ∧
    (∀ (prev : List Item) (item_id : Int),
        (load_items prev (toggle_completion prev item_id)).destroyed_ids = []
        ∧ (load_items prev (toggle_completion prev item_id)).created_ids = []
        ∧ (load_items prev (toggle_completion prev item_id)).order_changed
            = false) := by
  constructor
  · intro prev new_items hp hn
    exact ⟨process_items_destroyed _ _ hp, process_items_created _ _ hp hn⟩
  · intro prev item_id
    have hm := process_items_all_matched (toggle_completion prev item_id)
        (prev.map Item.id) (toggle_completion_map_id prev item_id)
    refine ⟨?_, ?_, ?_⟩ <;>
      simp [load_items, hm, List.filter_map, Function.comp_def,
        toggle_completion_map_id]

/-- Witness for C5's first part at a concrete reconciliation: previous
ids `[1, 2]`, new items with ids `[2, 4]` — widget `1` is destroyed,
widget `4` is created, widget `2` is reused. -/
theorem reconcile_minimality_witness :
    (([item_n 1 false, item_n 2 false].map Item.id).Nodup ∧
      ([item_n 2 true, item_n 4 false].map Item.id).Nodup) ∧
    ((load_items [item_n 1 false, item_n 2 false]
          [item_n 2 true, item_n 4 false]).destroyed_ids
        = ([item_n 1 false, item_n 2 false].map Item.id).filter
            (fun i =>
              !(([item_n 2 true, item_n 4 false].map Item.id).contains i)) ∧
      (load_items [item_n 1 false, item_n 2 false]
          [item_n 2 true, item_n 4 false]).created_ids
        = ([item_n 2 true, item_n 4 false].map Item.id).filter
            (fun i =>
              !(([item_n 1 false, item_n 2 false].map Item.id).contains i))) :=
  ⟨⟨by decide, by decide⟩,
   reconcile_minimality.1 _ _ (by decide) (by decide)⟩

/-- C6.  Drag gesture commits exactly once: every `_handle_item_drag`
step leaves the note state (document and history) untouched — it only
reorders the view — and in the spec's scenario (drag item `2` from
index 1 to index 0 in `[1, 2, 3]`, release) the drop rebuilds the
document order to `[2, 1, 3]` and performs exactly one history push for
the whole gesture: the history after the drop is the history before the
gesture extended by the single new snapshot. -/
theorem drag_commits_once :
    (∀ (s : DragState) (dragged_id : Int) (midpoints : List Int)
        (y_pos : Int),
        (handle_item_drag s dragged_id midpoints y_pos).note = s.note) ∧
    (drag_s1.widgets.map Item.id = [2, 1, 3] ∧
      drag_s1.note = drag_s0.note ∧
      (handle_item_drop drag_s1).note.data.items.map Item.id = [2, 1, 3] ∧
      (handle_item_drop drag_s1).note.history
        = drag_s0.note.history ++ [(handle_item_drop drag_s1).note.data]) := by
  refine ⟨?_, by decide, by decide, by decide, by decide⟩
  intro s dragged_id midpoints y_pos
  simp only [handle_item_drag]
  split
  · rfl
  · split <;> rfl

/-- C7.  `_swap_items` boundary behavior: when no item has the given id
the call is a no-op with no history push; when the target index is out
of bounds it is likewise a no-op with no push; when the target is in
bounds the item at the found index and its neighbor in the given
direction are exchanged (all other positions unchanged) and a history
push is committed. -/
theorem swap_items_boundary :
    (∀ (items : List Item) (item_id direction : Int),
        (∀ it ∈ items, it.id ≠ item_id) →
        swap_items items item_id direction = (items, false)) ∧
    (∀ (items : List Item) (item_id direction : Int) (ci : Nat),
        items.findIdx? (fun it => it.id = item_id) = some ci →
        ¬ (0 ≤ (ci : Int) + direction ∧
            (ci : Int) + direction < (items.length : Int)) →
        swap_items items item_id direction = (items, false)) ∧
    (∀ (items : List Item) (item_id direction : Int) (ci : Nat),
        items.findIdx? (fun it => it.id = item_id) = some ci →
        0 ≤ (ci : Int) + direction →
        (ci : Int) + direction < (items.length : Int) →
        (swap_items items item_id direction).2 = true ∧
        (swap_items items item_id direction).1.length = items.length ∧
        (swap_items items item_id direction).1[((ci : Int) + direction).toNat]?
            = items[ci]? ∧
        (swap_items items item_id direction).1[ci]?
            = items[((ci : Int) + direction).toNat]? ∧
        (∀ k : Nat, k ≠ ci → k ≠ ((ci : Int) + direction).toNat →
            (swap_items items item_id direction).1[k]? = items[k]?)) := by
  refine ⟨?_, ?_, ?_⟩
  · intro items item_id direction h
    have hn : items.findIdx? (fun it => decide (it.id = item_id)) = none :=
      List.findIdx?_eq_none_iff.mpr (fun x hx => by simpa using h x hx)
    simp only [swap_items, hn]
  · intro items item_id direction ci hf h2
    simp only [swap_items, hf, if_neg h2]
  · intro items item_id direction ci hf h1 h2
    have hci : ci < items.length :=
      (List.findIdx?_eq_some_iff_getElem.mp hf).1
    have ht : ((ci : Int) + direction).toNat < items.length := by omega
    simp only [swap_items, hf, if_pos (And.intro h1 h2)]
    refine ⟨by simp, by simp, ?_, ?_, ?_⟩
    · rw [List.getElem?_set_self (by simpa using ht),
        List.getD_eq_getElem?_getD, List.getElem?_eq_getElem hci]
      simp
    · by_cases heq2 : ci = ((ci : Int) + direction).toNat
      · rw [← heq2, List.getElem?_set_self (by simpa using hci),
          List.getD_eq_getElem?_getD, List.getElem?_eq_getElem hci]
        simp
      · rw [List.getElem?_set_ne (Ne.symm heq2),
          List.getElem?_set_self (by simpa using hci),
          List.getD_eq_getElem?_getD, List.getElem?_eq_getElem ht]
        simp
    · intro k hk1 hk2
      rw [List.getElem?_set_ne (Ne.symm hk2), List.getElem?_set_ne
        (Ne.symm hk1)]

/-- Witness for C7 at concrete inputs over the list `[1, 2, 3]`:
swapping an unknown id `9` declines, swapping id `1` upward declines
(target index `-1`), and swapping id `2` upward commits. -/
theorem swap_items_boundary_witness :
    swap_items [item_n 1 false, item_n 2 false, item_n 3 false] 9 1
      = ([item_n 1 false, item_n 2 false, item_n 3 false], false) ∧
    swap_items [item_n 1 false, item_n 2 false, item_n 3 false] 1 (-1)
      = ([item_n 1 false, item_n 2 false, item_n 3 false], false) ∧
    (swap_items [item_n 1 false, item_n 2 false, item_n 3 false] 2 (-1)).2
      = true :=
  ⟨swap_items_boundary.1 _ 9 1 (by decide),
   swap_items_boundary.2.1 _ 1 (-1) 0 (by decide) (by decide),
   (swap_items_boundary.2.2 _ 2 (-1) 1 (by decide) (by decide)
      (by decide)).1⟩

/-- C8 counterexample.  `_get_insert_position` scans *all* widgets in
view order, the dragged one included: with two widgets at midpoints
`[10, 30]`, the dragged widget at index 0 (midpoint 10), and the
pointer at `y = 20`, the code computes insert index `1`, while the
spec's count — visible items *excluding the dragged one* whose midpoint
lies above the pointer — is `0`.  The claimed equality is false at this
input. -/
theorem insert_index_spec_counterexample :
    get_insert_position [10, 30] 20 = 1 ∧
    spec_insert_index [10, 30] 0 20 = 0 ∧
    get_insert_position [10, 30] 20 ≠ spec_insert_index [10, 30] 0 20 := by
  decide

/-- C8 amended.  `insertIndex` is the first index in current view order
— the dragged widget *included* — whose midpoint lies strictly below
the pointer, equivalently (when midpoints increase down the view) the
number of items, the dragged one included, whose midpoint is at or
above the pointer; and the dragged element is relocated only when
`insertIndex` differs from both the dragged item's current index and
current index + 1 — a drop-in-place leaves the view order untouched,
zero relocations. -/
theorem insert_index_amended :
    (∀ (midpoints : List Int) (y_pos : Int),
        List.Pairwise (· < ·) midpoints →
        get_insert_position midpoints y_pos
          = (midpoints.filter (fun m => decide (m ≤ y_pos))).length) ∧
    (∀ (s : DragState) (dragged_id : Int) (midpoints : List Int)
        (y_pos : Int) (ci : Nat),
        s.widgets.findIdx? (fun w => w.id = dragged_id) = some ci →
        (get_insert_position midpoints y_pos = ci ∨
          get_insert_position midpoints y_pos = ci + 1) →
        (handle_item_drag s dragged_id midpoints y_pos).widgets
          = s.widgets) := by
  constructor
  · intro midpoints y_pos
    induction midpoints with
    | nil => intro _; rfl
    | cons m ms ih =>
      intro hs
      rw [List.pairwise_cons] at hs
      obtain ⟨hall, htail⟩ := hs
      rw [get_insert_position]
      by_cases hy : y_pos < m
      · rw [if_pos hy]
        have hnone : ∀ x ∈ m :: ms, ¬ (x ≤ y_pos) := by
          intro x hx
          rcases List.mem_cons.mp hx with rfl | hx2
          · omega
          · have := hall x hx2
            omega
        rw [List.filter_eq_nil_iff.mpr
          (by intro x hx; simpa using hnone x hx)]
        rfl
      · rw [if_neg hy, List.filter_cons_of_pos (by simp; omega), ih htail]
        simp
  · intro s dragged_id midpoints y_pos ci hf hor
    simp only [handle_item_drag, hf]
    rw [if_neg]
    intro hcon
    rcases hor with h | h
    · exact hcon.1 h
    · exact hcon.2 h

/-- Witness for C8's amended theorem at concrete inputs: sorted
midpoints `[10, 30]`, pointer at 20 — one midpoint at or above — and a
drop-in-place step (insert index equals current index) that relocates
nothing. -/
theorem insert_index_amended_witness :
    (List.Pairwise (· < ·) ([10, 30] : List Int) ∧
      get_insert_position [10, 30] 20
        = (([10, 30] : List Int).filter (fun m => decide (m ≤ 20))).length) ∧
    (drag_s0.widgets.findIdx? (fun w => w.id = 1) = some 0 ∧
      get_insert_position [100, 200, 300] 50 = 0 ∧
      (handle_item_drag drag_s0 1 [100, 200, 300] 50).widgets
        = drag_s0.widgets) :=
  ⟨⟨by decide, insert_index_amended.1 [10, 30] 20 (by decide)⟩,
   ⟨by decide, by decide,
    insert_index_amended.2 drag_s0 1 [100, 200, 300] 50 0 (by decide)
      (Or.inl (by decide))⟩⟩
